import Mathlib

/-!
Shallow embedding of the BBS PDF converter core (the table extraction and
normalization pipeline shared by `src/app.py` and `src/run.py`).

Modeling conventions:
* a pandas cell is `Option String`; `none` stands for a missing value (NaN),
  `some s` for the text `s`.  Python `str(cell)` renders NaN as `"nan"`
  (`pyStr`), while `fillna('')` renders it as `""` (`fillnaStr`).
* a DataFrame is a list of column labels plus a list of rows (`DF`).
* Python string primitives used by the code (`str.strip`, `str.lower`,
  `" ".join`, substring test `in`, regex `\s+` collapse, `str(int)`) are
  embedded as character-list functions so that everything evaluates inside
  the kernel.
* the external engines (pdfplumber, camelot) are oracles: a document is the
  list of per-page word lists pdfplumber would return, and the raw camelot
  tables for the chosen page range are an explicit list of `RawFragment`s.
-/

namespace BBS

/-- A pandas cell: `none` is NaN, `some s` is the string `s`. -/
abbrev Cell := Option String

/-- Characters Python's `str.strip` removes at both ends (whitespace). -/
def isWS (c : Char) : Bool := c.isWhitespace

/-- Drop leading and trailing whitespace from a character list. -/
def trimChars (l : List Char) : List Char :=
  ((l.dropWhile isWS).reverse.dropWhile isWS).reverse

/-- Python `str.strip()`. -/
def pyTrim (s : String) : String := ⟨trimChars s.data⟩

/-- Python `str.lower()` (ASCII case folding, as used on the header text). -/
def lowerStr (s : String) : String := ⟨s.data.map Char.toLower⟩

/-- `df.replace("\n", " ", regex=True)` applied to one cell's text. -/
def nlToSpace (s : String) : String :=
  ⟨s.data.map (fun ch => if ch = '\n' then ' ' else ch)⟩

/-- Boolean prefix test on character lists. -/
def isPrefixB : List Char → List Char → Bool
  | [], _ => true
  | _ :: _, [] => false
  | a :: as, b :: bs => a == b && isPrefixB as bs

/-- Boolean infix (substring) test on character lists: Python `needle in hay`. -/
def isInfixB (needle : List Char) : List Char → Bool
  | [] => isPrefixB needle []
  | c :: rest => isPrefixB needle (c :: rest) || isInfixB needle rest

/-- Python `pat in hay` on strings. -/
def containsSub (hay pat : String) : Bool := isInfixB pat.data hay.data

/-- Python `" ".join(ws)`. -/
def joinSp (ws : List String) : String :=
  ⟨List.intercalate [' '] (ws.map String.data)⟩

/-- Collapse every maximal run of whitespace to a single space
(the regex substitution `\s+` → `" "`). -/
def collapseWS : List Char → List Char
  | [] => []
  | [c] => if isWS c then [' '] else [c]
  | c :: d :: rest =>
    if isWS c && isWS d then collapseWS (d :: rest)
    else (if isWS c then ' ' else c) :: collapseWS (d :: rest)

/-- `.str.replace(r'\s+', ' ', regex=True).str.strip()` on one cell's text. -/
def cleanText (s : String) : String := pyTrim ⟨collapseWS s.data⟩

/-- Python `str(cell)`: NaN prints as `"nan"`. -/
def pyStr (c : Cell) : String := c.getD "nan"

/-- Python `cell.fillna('')`: NaN becomes the empty string. -/
def fillnaStr (c : Cell) : String := c.getD ""

/-- Decimal digits of `n`, most significant first, with explicit fuel
(`fuel > n` suffices).  Models Python `str(int)` for naturals. -/
def natToStrAux : Nat → Nat → List Char
  | 0, _ => []
  | fuel + 1, n =>
    if n < 10 then [Nat.digitChar n]
    else natToStrAux fuel (n / 10) ++ [Nat.digitChar (n % 10)]

/-- Python `str(n)` for a natural number. -/
def natToStr (n : Nat) : String := ⟨natToStrAux (n + 1) n⟩

/-- A DataFrame: ordered column labels and ordered rows of cells. -/
structure DF where
  cols : List String
  rows : List (List Cell)
deriving DecidableEq

/-- The 14 canonical output headers (`HEADERS` in the source). -/
def HEADERS : List String :=
  ["Bar Mark", "Type", "Size", "Total No.", "Shape No.",
   "a", "b", "c", "d", "e", "f", "g", "h", "i"]

/-- The five key columns (`KEY_COLUMNS` / `required_cols` in the source). -/
def KEY_COLUMNS : List String :=
  ["Bar Mark", "Type", "Size", "Total No.", "Shape No."]

/-- The lowercase joined text of one page's words, as built by
`find_start_page`. -/
def pageText (words : List String) : String :=
  joinSp (words.map lowerStr)

/-- Does a page's text qualify as the schedule start page
(`"bar" in text and "mark" in text`)? -/
def pageQualifies (words : List String) : Bool :=
  containsSub (pageText words) "bar" && containsSub (pageText words) "mark"

/-- Scan the remaining pages; `i` pages were already scanned. -/
def findStartAux : List (List String) → Nat → Option Nat
  | [], _ => none
  | p :: rest, i => if pageQualifies p then some (i + 1) else findStartAux rest (i + 1)

/-- `find_start_page`: 1-based index of the first page whose lowercase word
text contains both `"bar"` and `"mark"`, else `none`. -/
def find_start_page (doc : List (List String)) : Option Nat :=
  findStartAux doc 0

/-- `" ".join(row.astype(str).str.lower())` for one row. -/
def rowTextLower (r : List Cell) : String :=
  joinSp (r.map (fun c => lowerStr (pyStr c)))

/-- The header-row test of `find_header_row`. -/
def isHeaderRow (r : List Cell) : Bool :=
  containsSub (rowTextLower r) "bar mark" &&
    (containsSub (rowTextLower r) "shape code" || containsSub (rowTextLower r) "shape no")

/-- Scan rows for the first header row, returning its index and contents. -/
def findHeaderRowAux : List (List Cell) → Nat → Option (Nat × List Cell)
  | [], _ => none
  | r :: rest, i => if isHeaderRow r then some (i, r) else findHeaderRowAux rest (i + 1)

/-- `find_header_row`: first row whose joined lowercase text contains
`"bar mark"` and (`"shape code"` or `"shape no"`). -/
def findHeaderRow (rows : List (List Cell)) : Option (Nat × List Cell) :=
  findHeaderRowAux rows 0

/-- Number of non-empty trimmed cells of a row, over `n` columns
(`(row.fillna('').astype(str).str.strip() != '').sum()`). -/
def rowNonEmptyCount (n : Nat) (r : List Cell) : Nat :=
  (List.range n).countP (fun j => decide (pyTrim (fillnaStr (r.getD j none)) ≠ ""))

/-- `remove_sparse_rows(df, threshold)`: keep a row iff the fraction of
non-empty trimmed cells over the column count is `> 1 - threshold`. -/
def remove_sparse_rows (df : DF) (threshold : ℚ) : DF :=
  { df with rows := df.rows.filter (fun r =>
      decide ((rowNonEmptyCount df.cols.length r : ℚ) / (df.cols.length : ℚ) > 1 - threshold)) }

/-- The loop body state of `make_columns_unique`: the Python dict `seen`
as an association list (most recent binding first). -/
def mcuGo : List String → List (String × Nat) → List String
  | [], _ => []
  | c0 :: rest, seen =>
    let c := pyTrim c0
    let out := match seen.lookup c with
      | some k => c ++ "_" ++ natToStr (k + 1)
      | none => c
    out :: mcuGo rest ((c, (seen.lookup c).getD 0 + 1) :: seen)

/-- `make_columns_unique(cols)`: strip each label; a label already seen `k`
times is emitted as `label ++ "_" ++ str(k+1)`. -/
def make_columns_unique (cols : List String) : List String := mcuGo cols []

/-- Column indices kept by `df.dropna(axis=1, how='all')`: those with at
least one non-missing cell. -/
def keptCols (df : DF) : List Nat :=
  (List.range df.cols.length).filter
    (fun j => (df.rows.map (fun r => r.getD j none)).any (fun c => c.isSome))

/-- `clean_dataframe(df)`: drop all-NaN columns, then stringify and
whitespace-clean every remaining cell (`astype(str)` turns NaN into
`"nan"`). -/
def clean_dataframe (df : DF) : DF :=
  { cols := (keptCols df).map (fun j => df.cols.getD j ""),
    rows := df.rows.map (fun r =>
      (keptCols df).map (fun j => some (cleanText (pyStr (r.getD j none))))) }

/-- The trimmed string value the code reads from row `r` at the column
labeled `c` (label lookup, first occurrence). -/
def keyVal (df : DF) (r : List Cell) (c : String) : String :=
  pyTrim (pyStr (r.getD (df.cols.indexOf c) none))

/-- `filter_key_rows(df)`: keep rows whose every existing key column has a
non-empty trimmed value; a no-op when no key column exists. -/
def filter_key_rows (df : DF) : DF :=
  if (KEY_COLUMNS.filter (fun c => df.cols.contains c)).isEmpty then df
  else { df with rows := df.rows.filter (fun r =>
    (KEY_COLUMNS.filter (fun c => df.cols.contains c)).all
      (fun c => decide (keyVal df r c ≠ ""))) }

/-- The final per-fragment step of `extract_tables`: if a `"Bar Mark"`
column exists, keep only rows whose Bar Mark value is non-empty. -/
def drop_empty_barmark (df : DF) : DF :=
  if df.cols.contains "Bar Mark" then
    { df with rows := df.rows.filter (fun r => decide (keyVal df r "Bar Mark" ≠ "")) }
  else df

/-- One raw camelot table: its column count and its cell grid. -/
structure RawFragment where
  ncols : Nat
  cells : List (List Cell)
deriving DecidableEq

/-- The positional placeholder labels `str(0), str(1), ...` that a camelot
DataFrame carries as its default `RangeIndex` columns. -/
def posCols (n : Nat) : List String := (List.range n).map natToStr

/-- `table.df.replace("\n", " ", regex=True)`. -/
def prepRows (f : RawFragment) : List (List Cell) :=
  f.cells.map (List.map (Option.map nlToSpace))

/-- Header promotion: if a header row is found, its trimmed text becomes
the carried header and it and everything above it are dropped; otherwise
the carried header and the rows are unchanged. -/
def headerStep (cur : Option (List String)) (rows : List (List Cell)) :
    Option (List String) × List (List Cell) :=
  match findHeaderRow rows with
  | some (idx, hrow) => (some (hrow.map (fun c => pyTrim (pyStr c))), rows.drop (idx + 1))
  | none => (cur, rows)

/-- Column assignment: carried header labels when the column counts agree,
positional placeholders otherwise. -/
def assignStep (cur : Option (List String)) (ncols : Nat) : List String :=
  match cur with
  | some h => if ncols = h.length then h else posCols ncols
  | none => posCols ncols

/-- The whole per-fragment body of the `for table in tables` loop:
newline cleanup, header promotion, column assignment, label deduplication,
cell cleanup, key filter, sparsity filter, Bar Mark filter.  Returns the
updated carried header and the fragment's surviving table. -/
def processFragment (cur : Option (List String)) (f : RawFragment) :
    Option (List String) × DF :=
  let rows0 := prepRows f
  let s := headerStep cur rows0
  let df0 : DF := ⟨make_columns_unique (assignStep s.1 f.ncols), s.2⟩
  let df1 := drop_empty_barmark
    (remove_sparse_rows (filter_key_rows (clean_dataframe df0)) ((1 : ℚ) / 2))
  (s.1, df1)

/-- `df.empty`: no rows or no columns. -/
def dfEmpty (df : DF) : Bool := df.rows.isEmpty || df.cols.isEmpty

/-- The fragment loop: process fragments in order, threading the carried
header, keeping only non-empty results. -/
def runFragments : Option (List String) → List RawFragment → List DF
  | _, [] => []
  | cur, f :: rest =>
    let p := processFragment cur f
    (if dfEmpty p.2 then [] else [p.2]) ++ runFragments p.1 rest

/-- `pd.concat(all_tables, ignore_index=True, sort=False)`: columns are
united in order of first appearance; a fragment missing a column
contributes NaN there. -/
def concatTables (ts : List DF) : DF :=
  let cols := ts.foldl (fun acc t => acc ++ t.cols.filter (fun c => !acc.contains c)) []
  { cols := cols,
    rows := ts.flatMap (fun t => t.rows.map (fun r =>
      cols.map (fun c => if t.cols.contains c then r.getD (t.cols.indexOf c) none else none))) }

/-- `extract_tables`: locate the start page, run the fragment loop over the
raw tables the external engine returns for that range, concatenate the
survivors; `none` is the empty-result sentinel (`None` in `app.py`, the
empty DataFrame in `run.py`). -/
def extract_tables (doc : List (List String)) (frags : List RawFragment) : Option DF :=
  match find_start_page doc with
  | none => none
  | some _ =>
    let ts := runFragments none frags
    if ts.isEmpty then none else some (concatTables ts)

/-- One output row of the export step, for one input row `r`: for each of
the 14 canonical headers, the mapped source column's cell, or an
empty-string cell for the `"(Ignore)"` sentinel (`none`). -/
def mapRow (df : DF) (m : String → Option String) (r : List Cell) : List Cell :=
  HEADERS.map (fun h =>
    match m h with
    | some c => r.getD (df.cols.indexOf c) none
    | none => some "")

/-- The export step (`pd.DataFrame(final_dict)`).  Every dict value is a
column Series except for the ignore sentinel, which contributes the scalar
`""`; pandas broadcasts the scalars over the index of the Series present,
but raises `ValueError` ("If using all scalar values, you must pass an
index") when every value is a scalar.  `none` models that raised error:
it occurs exactly when every canonical header is mapped to ignore. -/
def buildOutput (df : DF) (m : String → Option String) : Option DF :=
  if HEADERS.all (fun h => (m h).isNone) then none
  else some { cols := HEADERS, rows := df.rows.map (mapRow df m) }

/-- Modelled from the spec's deduplication wording, with the suffix index
amended to what the code computes: the first occurrence of a (stripped)
label stays bare, and its k-th repeat (k = 1, 2, ...) is renamed to the
label followed by `"_"` and the numeral `k + 1`, in order of appearance.
`prev` is the list of stripped labels already processed. -/
def dedupSpecGo (prev : List String) : List String → List String
  | [] => []
  | c0 :: rest =>
    let c := pyTrim c0
    let k := prev.count c
    (if k = 0 then c else c ++ "_" ++ natToStr (k + 1)) :: dedupSpecGo (prev ++ [c]) rest

/-- The amended deduplication specification, starting from an empty history. -/
def dedupSpec (cols : List String) : List String := dedupSpecGo [] cols

theorem mcuGo_eq_dedupSpecGo (rest : List String) :
    ∀ (seen : List (String × Nat)) (prev : List String),
      (∀ c, seen.lookup c = if prev.count c = 0 then none else some (prev.count c)) →
      mcuGo rest seen = dedupSpecGo prev rest := by
  induction rest with
  | nil => intro seen prev _; rfl
  | cons c0 rest ih =>
    intro seen prev hinv
    simp only [mcuGo, dedupSpecGo, hinv (pyTrim c0)]
    by_cases h0 : prev.count (pyTrim c0) = 0
    · simp only [h0, if_pos rfl, reduceIte, Option.getD_none]
      refine congrArg _ (ih _ _ ?_)
      intro c
      rcases eq_or_ne c (pyTrim c0) with rfl | hne
      · simp [List.lookup_cons, List.count_append, h0]
      · have hbeq : (pyTrim c0 == c) = false := by
          simp [beq_eq_false_iff_ne]; exact fun h => hne h.symm
        have h2 : ¬ pyTrim c0 = c := fun h => hne h.symm
        simp only [List.lookup_cons, hbeq, cond_false, hinv c, List.count_append]
        simp [List.count_cons, hbeq, beq_eq_false_iff_ne.mpr hne, h2]
    · simp only [h0, reduceIte, Option.getD_some]
      refine congrArg _ (ih _ _ ?_)
      intro c
      rcases eq_or_ne c (pyTrim c0) with rfl | hne
      · simp [List.lookup_cons, List.count_append, h0]
      · have hbeq : (pyTrim c0 == c) = false := by
          simp [beq_eq_false_iff_ne]; exact fun h => hne h.symm
        have h2 : ¬ pyTrim c0 = c := fun h => hne h.symm
        simp only [List.lookup_cons, hbeq, cond_false, hinv c, List.count_append]
        simp [List.count_cons, hbeq, beq_eq_false_iff_ne.mpr hne, h2]

/-- C2 counterexample: a label `"a"` occurring twice is renamed to
`"a"` and `"a_2"`, not `"a"` and `"a_1"` as the claim states (the code
suffixes the k-th repeat with `k + 1`, not `k`). -/
theorem make_columns_unique_first_repeat_suffix_two :
    make_columns_unique ["a", "a"] = ["a", "a_2"] ∧
      make_columns_unique ["a", "a"] ≠ ["a", "a_1"] := by
  constructor
  · rfl
  · decide

/-- C2 (amended): deduplication keeps the first occurrence of a stripped
label bare and renames its k-th repeat (k = 1, 2, ...) to the label
followed by the suffix `"_"` and the numeral `k + 1`, in order of
appearance; in particular `"a"` occurring twice becomes `"a"` and `"a_2"`. -/
theorem make_columns_unique_eq_dedupSpec (cols : List String) :
    make_columns_unique cols = dedupSpec cols := by
  refine mcuGo_eq_dedupSpecGo cols [] [] ?_
  intro c
  simp [List.lookup]

/-- C1: `make_columns_unique` fails to make the labels pairwise distinct
when an incoming label equals another label plus a numeric suffix: on
`["a", "a", "a_2"]` it returns `["a", "a_2", "a_2"]`, which repeats
`"a_2"`, while the normalizer is specified (and named) to produce
pairwise distinct labels. -/
theorem make_columns_unique_suffix_collision :
    make_columns_unique ["a", "a", "a_2"] = ["a", "a_2", "a_2"] ∧
      ¬ (make_columns_unique ["a", "a", "a_2"]).Nodup := by
  constructor
  · rfl
  · decide

theorem contains_iff_mem_str (l : List String) (a : String) :
    l.contains a = true ↔ a ∈ l := by
  simp [List.contains, List.elem_eq_mem]

/-- C3: with threshold 0.5 the sparsity filter keeps a row iff the fraction
of non-empty trimmed cells over the column count is strictly greater than
one half; a row with exactly 50% non-empty cells is discarded. -/
theorem remove_sparse_rows_density_spec (df : DF) (r : List Cell) :
    (r ∈ (remove_sparse_rows df ((1 : ℚ) / 2)).rows ↔
      r ∈ df.rows ∧
        (rowNonEmptyCount df.cols.length r : ℚ) / (df.cols.length : ℚ) > 1 / 2) ∧
    (2 * rowNonEmptyCount df.cols.length r = df.cols.length →
      r ∉ (remove_sparse_rows df ((1 : ℚ) / 2)).rows) := by
  have hhalf : (1 : ℚ) - 1 / 2 = 1 / 2 := by norm_num
  have hmemiff : r ∈ (remove_sparse_rows df ((1 : ℚ) / 2)).rows ↔
      r ∈ df.rows ∧
        (rowNonEmptyCount df.cols.length r : ℚ) / (df.cols.length : ℚ) > 1 / 2 := by
    simp only [remove_sparse_rows, List.mem_filter, decide_eq_true_eq, gt_iff_lt]
    constructor
    · rintro ⟨hm, hlt⟩
      refine ⟨hm, ?_⟩
      rw [← hhalf]
      exact hlt
    · rintro ⟨hm, hlt⟩
      refine ⟨hm, ?_⟩
      rw [hhalf]
      exact hlt
  refine ⟨hmemiff, ?_⟩
  intro h2 hmem
  have hfrac := (hmemiff.mp hmem).2
  rcases Nat.eq_zero_or_pos (rowNonEmptyCount df.cols.length r) with hc | hc
  · have hlen : df.cols.length = 0 := by omega
    rw [hc, hlen] at hfrac
    norm_num at hfrac
  · have hlen : (df.cols.length : ℚ) = 2 * (rowNonEmptyCount df.cols.length r : ℚ) := by
      exact_mod_cast h2.symm
    have hne : (rowNonEmptyCount df.cols.length r : ℚ) ≠ 0 := by
      exact_mod_cast Nat.pos_iff_ne_zero.mp hc
    rw [hlen] at hfrac
    have heq : (rowNonEmptyCount df.cols.length r : ℚ) /
        (2 * (rowNonEmptyCount df.cols.length r : ℚ)) = 1 / 2 := by
      field_simp
      ring
    rw [heq] at hfrac
    exact lt_irrefl _ hfrac

/-- C4: the key-completeness filter keeps exactly the rows whose every key
column existing among the fragment's columns has a non-empty trimmed value,
and is the identity when none of the five key columns exist. -/
theorem filter_key_rows_spec (df : DF) :
    ((∀ c ∈ KEY_COLUMNS, c ∉ df.cols) → filter_key_rows df = df) ∧
    (∀ r, r ∈ (filter_key_rows df).rows ↔
      r ∈ df.rows ∧ ∀ c ∈ KEY_COLUMNS, c ∈ df.cols → keyVal df r c ≠ "") := by
  have hmemreq : ∀ c, c ∈ KEY_COLUMNS.filter (fun c => df.cols.contains c) ↔
      (c ∈ KEY_COLUMNS ∧ c ∈ df.cols) := by
    intro c
    simp [List.mem_filter, contains_iff_mem_str]
  constructor
  · intro hno
    have hreq : KEY_COLUMNS.filter (fun c => df.cols.contains c) = [] := by
      rw [List.eq_nil_iff_forall_not_mem]
      intro c hc
      exact hno c ((hmemreq c).mp hc).1 ((hmemreq c).mp hc).2
    unfold filter_key_rows
    rw [hreq]
    simp
  · intro r
    by_cases hreq : (KEY_COLUMNS.filter (fun c => df.cols.contains c)).isEmpty
    · have hnil : KEY_COLUMNS.filter (fun c => df.cols.contains c) = [] := by
        simpa [List.isEmpty_iff] using hreq
      have hvac : ∀ c ∈ KEY_COLUMNS, c ∈ df.cols → keyVal df r c ≠ "" := by
        intro c hc hcc
        exact absurd ((hmemreq c).mpr ⟨hc, hcc⟩) (by rw [hnil]; exact List.not_mem_nil c)
      unfold filter_key_rows
      rw [hnil]
      simp
      exact fun _ => hvac
    · have hrows : (filter_key_rows df).rows =
          df.rows.filter (fun r =>
            (KEY_COLUMNS.filter (fun c => df.cols.contains c)).all
              (fun c => decide (keyVal df r c ≠ ""))) := by
        unfold filter_key_rows
        rw [if_neg (by simpa using hreq)]
      rw [hrows, List.mem_filter, List.all_eq_true]
      constructor
      · rintro ⟨hmem, hall⟩
        refine ⟨hmem, ?_⟩
        intro c hc hcc
        simpa using hall c ((hmemreq c).mpr ⟨hc, hcc⟩)
      · rintro ⟨hmem, hall⟩
        refine ⟨hmem, ?_⟩
        intro c hc
        simpa using hall c ((hmemreq c).mp hc).1 ((hmemreq c).mp hc).2

/-- C7 counterexample: on a fragment whose first column consists solely of
empty strings, `clean_dataframe` keeps that column (pandas `dropna` only
drops all-NaN columns), so an entirely empty column survives cleanup. -/
theorem clean_dataframe_keeps_empty_string_column :
    (∀ r ∈ (⟨["A", "B"], [[some "", some "x"]]⟩ : DF).rows,
        pyTrim (fillnaStr (r.getD 0 none)) = "") ∧
      (clean_dataframe ⟨["A", "B"], [[some "", some "x"]]⟩).cols = ["A", "B"] := by
  constructor
  · decide
  · rfl

/-- C7 (amended): cleanup removes exactly the columns whose every cell is a
missing value; a column with at least one present cell is kept even when
all of its values are empty strings. -/
theorem clean_dataframe_drops_only_all_missing_columns (df : DF) :
    (clean_dataframe df).cols =
      ((List.range df.cols.length).filter
        (fun j => decide (∃ r ∈ df.rows, r.getD j none ≠ none))).map
        (fun j => df.cols.getD j "") := by
  have hpred : ∀ j,
      ((df.rows.map (fun r => r.getD j none)).any (fun c => c.isSome)) =
        decide (∃ r ∈ df.rows, r.getD j none ≠ none) := by
    intro j
    rcases h : decide (∃ r ∈ df.rows, r.getD j none ≠ none) with _ | _
    · rw [decide_eq_false_iff_not] at h
      simp only [List.any_eq_false]
      intro c hc
      rw [List.mem_map] at hc
      rcases hc with ⟨r, hr, rfl⟩
      rcases hcase : r.getD j none with _ | v
      · simp
      · exact absurd ⟨r, hr, by rw [hcase]; simp⟩ h
    · rw [decide_eq_true_eq] at h
      rcases h with ⟨r, hr, hne⟩
      simp only [List.any_eq_true]
      exact ⟨r.getD j none, List.mem_map_of_mem _ hr, Option.isSome_iff_ne_none.mpr hne⟩
  simp only [clean_dataframe, keptCols]
  rw [List.filter_congr (fun j _ => hpred j)]

/-- C10: each of the three row filters (key completeness, sparsity, Bar
Mark non-emptiness) leaves the column labels unchanged and returns a
sublist of the input rows: surviving rows keep their cell values and their
relative order. -/
theorem row_filters_only_remove_rows (df : DF) (threshold : ℚ) :
    ((filter_key_rows df).cols = df.cols ∧
      (filter_key_rows df).rows.Sublist df.rows) ∧
    ((remove_sparse_rows df threshold).cols = df.cols ∧
      (remove_sparse_rows df threshold).rows.Sublist df.rows) ∧
    ((drop_empty_barmark df).cols = df.cols ∧
      (drop_empty_barmark df).rows.Sublist df.rows) := by
  have hfkr : (filter_key_rows df).cols = df.cols ∧
      (filter_key_rows df).rows.Sublist df.rows := by
    unfold filter_key_rows
    by_cases h : (KEY_COLUMNS.filter (fun c => df.cols.contains c)).isEmpty = true
    · rw [if_pos h]
      exact ⟨rfl, List.Sublist.refl _⟩
    · rw [if_neg h]
      exact ⟨rfl, List.filter_sublist _⟩
  have hbm : (drop_empty_barmark df).cols = df.cols ∧
      (drop_empty_barmark df).rows.Sublist df.rows := by
    unfold drop_empty_barmark
    by_cases h : df.cols.contains "Bar Mark" = true
    · rw [if_pos h]
      exact ⟨rfl, List.filter_sublist _⟩
    · rw [if_neg h]
      exact ⟨rfl, List.Sublist.refl _⟩
  exact ⟨hfkr, ⟨rfl, List.filter_sublist _⟩, hbm⟩

theorem findStartAux_shift (pages : List (List String)) :
    ∀ i, findStartAux pages i = (findStartAux pages 0).map (fun n => n + i) := by
  induction pages with
  | nil => intro i; rfl
  | cons p rest ih =>
    intro i
    by_cases hq : pageQualifies p = true
    · simp only [findStartAux, hq, if_pos, reduceIte, Option.map_some]
      refine congrArg some ?_
      show i + 1 = 0 + 1 + i
      omega
    · simp only [findStartAux, hq, reduceIte]
      rw [ih (i + 1), ih 1]
      cases findStartAux rest 0 with
      | none => rfl
      | some m => exact congrArg some (by simp; omega)

/-- C5: the page locator returns the 1-based index of the first page whose
joined lowercase word text contains both `"bar"` and `"mark"` as
substrings — every earlier page does not qualify — and returns the
not-found signal exactly when no page qualifies. -/
theorem find_start_page_first_match (doc : List (List String)) :
    ∀ n,
      (find_start_page doc = some n ↔
        (1 ≤ n ∧ n ≤ doc.length ∧ pageQualifies (doc.getD (n - 1) []) = true ∧
          ∀ p ∈ doc.take (n - 1), pageQualifies p = false)) ∧
      (find_start_page doc = none ↔ ∀ p ∈ doc, pageQualifies p = false) := by
  induction doc with
  | nil =>
    intro n
    constructor
    · constructor
      · intro h
        simp [find_start_page, findStartAux] at h
      · rintro ⟨h1, h2, _⟩
        simp only [List.length_nil] at h2
        omega
    · simp [find_start_page, findStartAux]
  | cons p rest ih =>
    intro n
    by_cases hq : pageQualifies p = true
    · have hfsp : find_start_page (p :: rest) = some 1 := by
        simp [find_start_page, findStartAux, hq]
      constructor
      · rw [hfsp]
        constructor
        · intro h
          have hn : 1 = n := by simpa using h
          subst hn
          exact ⟨le_refl 1, by simp, by simpa using hq, by simp⟩
        · rintro ⟨h1, h2, h3, h4⟩
          by_cases hn1 : n = 1
          · rw [hn1]
          · have hp : p ∈ (p :: rest).take (n - 1) := by
              obtain ⟨k, hk⟩ : ∃ k, n - 1 = k + 1 := ⟨n - 2, by omega⟩
              rw [hk, List.take_succ_cons]
              exact List.mem_cons_self _ _
            have hfalse := h4 p hp
            rw [hq] at hfalse
            exact absurd hfalse (by simp)
      · rw [hfsp]
        constructor
        · intro h
          simp at h
        · intro h
          have hfalse := h p (List.mem_cons_self _ _)
          rw [hq] at hfalse
          exact absurd hfalse (by simp)
    · have hqf : pageQualifies p = false := by
        simpa using hq
      have hfsp : find_start_page (p :: rest) =
          (find_start_page rest).map (fun m => m + 1) := by
        simp only [find_start_page, findStartAux, hq, reduceIte]
        exact findStartAux_shift rest 1
      constructor
      · rw [hfsp]
        constructor
        · intro h
          rcases hrest : find_start_page rest with _ | m
          · rw [hrest] at h
            simp at h
          · rw [hrest] at h
            simp only [Option.map_some', Option.some.injEq] at h
            obtain ⟨hm1, hm2, hm3, hm4⟩ := ((ih m).1).mp hrest
            subst h
            obtain ⟨k, hk⟩ : ∃ k, m = k + 1 := ⟨m - 1, by omega⟩
            refine ⟨by omega, by simp; omega, ?_, ?_⟩
            · have : m + 1 - 1 = k + 1 := by omega
              rw [this, List.getD_cons_succ]
              have : k = m - 1 := by omega
              rw [this]
              exact hm3
            · intro q hqmem
              have : m + 1 - 1 = k + 1 := by omega
              rw [this, List.take_succ_cons] at hqmem
              rcases List.mem_cons.mp hqmem with rfl | hqr
              · exact hqf
              · refine hm4 q ?_
                have : k = m - 1 := by omega
                rw [this] at hqr
                exact hqr
        · rintro ⟨h1, h2, h3, h4⟩
          by_cases hn1 : n = 1
          · subst hn1
            simp only [show (1 : Nat) - 1 = 0 from rfl, List.getD_cons_zero] at h3
            rw [hqf] at h3
            exact absurd h3 (by simp)
          · obtain ⟨k, hk⟩ : ∃ k, n = k + 2 := ⟨n - 2, by omega⟩
            subst hk
            have hget : (p :: rest).getD (k + 2 - 1) [] = rest.getD (k + 1 - 1) [] := by
              have h21 : k + 2 - 1 = k + 1 := by omega
              rw [h21, List.getD_cons_succ]
              exact congrArg (fun j => rest.getD j ([] : List String)) (by omega)
            have htake : ∀ q ∈ rest.take (k + 1 - 1), pageQualifies q = false := by
              intro q hqr
              refine h4 q ?_
              have h21 : k + 2 - 1 = k + 1 := by omega
              rw [h21, List.take_succ_cons]
              refine List.mem_cons_of_mem _ ?_
              have h10 : k + 1 - 1 = k := by omega
              rw [h10] at hqr
              exact hqr
            have hrest : find_start_page rest = some (k + 1) := by
              refine ((ih (k + 1)).1).mpr ⟨by omega, ?_, ?_, htake⟩
              · simp at h2
                omega
              · rw [← hget]
                exact h3
            rw [hrest]
            rfl
      · rw [hfsp]
        constructor
        · intro h
          rcases hrest : find_start_page rest with _ | m
          · intro q hqmem
            rcases List.mem_cons.mp hqmem with rfl | hqr
            · exact hqf
            · exact ((ih 0).2).mp hrest q hqr
          · rw [hrest] at h
            simp at h
        · intro h
          have hrestnone : find_start_page rest = none :=
            ((ih 0).2).mpr (fun q hqr => h q (List.mem_cons_of_mem _ hqr))
          rw [hrestnone]
          rfl

/-- C6: for a fragment with no header row of its own, the carried header
survives header promotion and the rows pass through unchanged; when the
fragment's column count equals the carried header's length its columns
become exactly the carried labels, otherwise they stay the positional
placeholders — the mismatch never drops a row. -/
theorem carried_header_assignment (h : List String) (f : RawFragment)
    (hnohdr : findHeaderRow (prepRows f) = none) :
    headerStep (some h) (prepRows f) = (some h, prepRows f) ∧
    (f.ncols = h.length →
      assignStep (headerStep (some h) (prepRows f)).1 f.ncols = h) ∧
    (f.ncols ≠ h.length →
      assignStep (headerStep (some h) (prepRows f)).1 f.ncols = posCols f.ncols) := by
  have hstep : headerStep (some h) (prepRows f) = (some h, prepRows f) := by
    unfold headerStep
    rw [hnohdr]
  refine ⟨hstep, ?_, ?_⟩
  · intro heq
    rw [hstep]
    show (if f.ncols = h.length then h else posCols f.ncols) = h
    rw [if_pos heq]
  · intro hne
    rw [hstep]
    show (if f.ncols = h.length then h else posCols f.ncols) = posCols f.ncols
    rw [if_neg hne]

theorem carried_header_assignment_witness :
    assignStep (headerStep (some ["A", "B"])
        (prepRows ⟨2, [[some "x", some "y"]]⟩)).1
        (⟨2, [[some "x", some "y"]]⟩ : RawFragment).ncols = ["A", "B"] ∧
    assignStep (headerStep (some ["A", "B"])
        (prepRows ⟨3, [[some "x", some "y", some "z"]]⟩)).1
        (⟨3, [[some "x", some "y", some "z"]]⟩ : RawFragment).ncols = posCols 3 := by
  constructor
  · exact (carried_header_assignment ["A", "B"] ⟨2, [[some "x", some "y"]]⟩
      (by decide)).2.1 rfl
  · exact (carried_header_assignment ["A", "B"] ⟨3, [[some "x", some "y", some "z"]]⟩
      (by decide)).2.2 (by decide)

theorem getD_map_indexOf (g : String → Cell) (a : String) :
    ∀ l : List String, a ∈ l → (l.map g).getD (l.indexOf a) none = g a := by
  intro l
  induction l with
  | nil => intro ha; cases ha
  | cons b t ih =>
    intro ha
    rcases hba : (b == a) with _ | _
    · have hat : a ∈ t := by
        rcases List.mem_cons.mp ha with rfl | hmem
        · rw [beq_self_eq_true] at hba
          cases hba
        · exact hmem
      have hidx : (b :: t).indexOf a = t.indexOf a + 1 := by
        show List.findIdx (· == a) (b :: t) = List.findIdx (· == a) t + 1
        rw [List.findIdx_cons]
        simp only [hba, cond_false]
      rw [hidx, List.map_cons, List.getD_cons_succ]
      exact ih hat
    · have hb : b = a := eq_of_beq hba
      subst hb
      have hidx : (b :: t).indexOf b = 0 := by
        show List.findIdx (· == b) (b :: t) = 0
        rw [List.findIdx_cons]
        simp
      rw [hidx, List.map_cons, List.getD_cons_zero]

/-- C8 counterexample: with the mapping that sends every canonical header
to the ignore sentinel — the spec's default — every value handed to
`pd.DataFrame` is the scalar `""` and pandas raises `ValueError` instead
of producing any output table, so the claimed 14-column output does not
exist for this mapping. -/
theorem buildOutput_all_ignore_raises :
    buildOutput ⟨["X"], [[some "v1"]]⟩ (fun _ => none) = none := by
  rfl

/-- C8 (amended): for every mapping that assigns at least one canonical
header to a source column, the export succeeds and the output table has
exactly the 14 canonical headers in the fixed order; each header mapped to
the ignore sentinel receives an all-empty column whose length equals the
row count, and each header mapped to an existing source column receives
that column's cells verbatim.  (With every header ignored, the export
raises instead of producing a table.) -/
theorem buildOutput_mapping (df : DF) (m : String → Option String)
    (hsome : ∃ h0 ∈ HEADERS, m h0 ≠ none) :
    ∃ out, buildOutput df m = some out ∧
      (out.cols = HEADERS ∧ HEADERS.length = 14) ∧
      (∀ h0 ∈ HEADERS, m h0 = none →
        out.rows.map (fun r => r.getD (HEADERS.indexOf h0) none) =
          List.replicate df.rows.length (some "")) ∧
      (∀ h0 c, h0 ∈ HEADERS → m h0 = some c → c ∈ df.cols →
        out.rows.map (fun r => r.getD (HEADERS.indexOf h0) none) =
          df.rows.map (fun r => r.getD (df.cols.indexOf c) none)) := by
  have hcond : ¬ HEADERS.all (fun h => (m h).isNone) = true := by
    rw [List.all_eq_true]
    intro hall
    rcases hsome with ⟨h0, hh0, hne⟩
    have hnone := hall h0 hh0
    rcases hmh : m h0 with _ | c
    · exact hne hmh
    · rw [hmh] at hnone
      exact absurd hnone (by simp)
  refine ⟨{ cols := HEADERS, rows := df.rows.map (mapRow df m) }, ?_, ⟨rfl, rfl⟩, ?_, ?_⟩
  · unfold buildOutput
    rw [if_neg hcond]
  · intro h0 hh hm
    show (df.rows.map (mapRow df m)).map
        (fun r => r.getD (HEADERS.indexOf h0) none) = _
    rw [List.map_map]
    have hfun : ((fun r : List Cell => r.getD (HEADERS.indexOf h0) none) ∘ mapRow df m) =
        fun _ : List Cell => some "" := by
      funext r
      show (mapRow df m r).getD (HEADERS.indexOf h0) none = some ""
      unfold mapRow
      rw [getD_map_indexOf _ h0 HEADERS hh, hm]
    rw [hfun, List.map_const']
  · intro h0 c hh hm hc
    show (df.rows.map (mapRow df m)).map
        (fun r => r.getD (HEADERS.indexOf h0) none) = _
    rw [List.map_map]
    refine List.map_congr_left ?_
    intro r _
    show (mapRow df m r).getD (HEADERS.indexOf h0) none = _
    unfold mapRow
    rw [getD_map_indexOf _ h0 HEADERS hh, hm]

theorem buildOutput_mapping_witness :
    ∃ out, buildOutput ⟨["X"], [[some "v1"], [some "v2"]]⟩
        (fun h => if h = "Bar Mark" then some "X" else none) = some out ∧
      out.cols = HEADERS ∧
      out.rows.map (fun r => r.getD (HEADERS.indexOf "Type") none) =
        List.replicate 2 (some "") ∧
      out.rows.map (fun r => r.getD (HEADERS.indexOf "Bar Mark") none) =
        [some "v1", some "v2"] := by
  obtain ⟨out, hout, ⟨hcols, hlen⟩, hign, hmap⟩ :=
    buildOutput_mapping ⟨["X"], [[some "v1"], [some "v2"]]⟩
      (fun h => if h = "Bar Mark" then some "X" else none)
      ⟨"Bar Mark", by decide, by decide⟩
  refine ⟨out, hout, hcols, ?_, ?_⟩
  · exact hign "Type" (by decide) (by decide)
  · exact (hmap "Bar Mark" "X" (by decide) (by decide) (by decide)).trans (by decide)

/-- C9: the pipeline yields the empty-result sentinel — a value, not an
exception — when no page carries the marker text, when the external engine
produced zero fragments, or when every fragment was filtered to nothing. -/
theorem extract_tables_empty_sentinel (doc : List (List String))
    (frags : List RawFragment)
    (h : find_start_page doc = none ∨ frags = [] ∨ runFragments none frags = []) :
    extract_tables doc frags = none := by
  rcases h with h | h | h
  · unfold extract_tables
    rw [h]
  · subst h
    unfold extract_tables
    cases hfsp : find_start_page doc with
    | none => rfl
    | some k => rfl
  · unfold extract_tables
    cases hfsp : find_start_page doc with
    | none => rfl
    | some k =>
      simp [h]

theorem extract_tables_empty_sentinel_witness :
    extract_tables [["hello", "world"]] [⟨1, [[some "x"]]⟩] = none ∧
    extract_tables [["bar", "mark"]] [] = none := by
  constructor
  · exact extract_tables_empty_sentinel _ _ (Or.inl (by decide))
  · exact extract_tables_empty_sentinel _ _ (Or.inr (Or.inl rfl))

theorem remove_sparse_rows_boundary_witness :
    [some "x", some ""] ∉
      (remove_sparse_rows ⟨["A", "B"], [[some "x", some ""]]⟩ ((1 : ℚ) / 2)).rows :=
  (remove_sparse_rows_density_spec ⟨["A", "B"], [[some "x", some ""]]⟩
    [some "x", some ""]).2 (by decide)

theorem filter_key_rows_witness :
    [some "B1"] ∈ (filter_key_rows ⟨["Bar Mark"], [[some "B1"], [some " "]]⟩).rows :=
  ((filter_key_rows_spec ⟨["Bar Mark"], [[some "B1"], [some " "]]⟩).2
    [some "B1"]).mpr ⟨by decide, by decide⟩

theorem find_start_page_first_match_witness :
    find_start_page [["intro"], ["Bar", "Mark", "Schedule"]] = some 2 :=
  ((find_start_page_first_match [["intro"], ["Bar", "Mark", "Schedule"]] 2).1).mpr
    (by decide)

end BBS
